import Mathlib

/-
  Shallow embedding of the in-memory writable filesystem backend of the
  wfs repository (src/map.go), built on Go fstest.MapFS semantics
  (testing/fstest/mapfs.go) as used by that file.

  Conventions of the embedding:
  * machine integers become Nat (file modes, flags) or Int (offsets);
  * byte slices become List Nat;
  * the Go map fstest.MapFS becomes an association list with
    first-match lookup; Go maps have unique keys, which theorems assume
    through an explicit Nodup hypothesis where it matters;
  * time.Now() becomes an explicit parameter now;
  * fallible operations return the mutated table or handle together
    with an Option or Except error value.
-/

namespace Wfs

/-- Flag constants from the os package (linux values used by the repo). -/
def O_RDONLY : Nat := 0

def O_WRONLY : Nat := 1

def O_RDWR : Nat := 2

def O_CREATE : Nat := 64

def O_EXCL : Nat := 128

def O_TRUNC : Nat := 512

def O_APPEND : Nat := 1024

/-- fs.ModeDir: bit 31 of a FileMode word. -/
def ModeDir : Nat := 2147483648

/-- FileMode.IsDir: m(and)ModeDir is nonzero. -/
def IsDir (m : Nat) : Bool := m &&& ModeDir != 0

/-- One fstest.MapFile record: raw bytes, mode word, modification time. -/
structure MapFile where
  Data : List Nat
  Mode : Nat
  ModTime : Nat
  deriving DecidableEq, Repr

/-- The fstest.MapFS path table, as an association list with unique keys. -/
abbrev MapFS := List (String × MapFile)

/-- Map lookup, first match wins (Go maps have at most one match). -/
def findEntry (m : MapFS) (k : String) : Option MapFile :=
  List.lookup k m

/-- Map insert or replace, models m[k] = v on a Go map. -/
def insertEntry (m : MapFS) (k : String) (v : MapFile) : MapFS :=
  (k, v) :: m.filter (fun kv => kv.1 != k)

/-- Map delete, models delete(m, k) on a Go map. -/
def eraseEntry (m : MapFS) (k : String) : MapFS :=
  m.filter (fun kv => kv.1 != k)

/-- In-place update of the Data field of an existing record; models a
mutation through the shared MapFile pointer held both by the table and by
an open handle.  Absent keys are untouched (no entry is created). -/
def setData (m : MapFS) (k : String) (d : List Nat) : MapFS :=
  m.map (fun kv => if kv.1 == k then (kv.1, { kv.2 with Data := d }) else kv)

/-- Elements of a slash-separated path, models strings.Split(name, "/")
restricted to what fs.ValidPath inspects. -/
def splitElems : List Char → List (List Char)
  | [] => [[]]
  | c :: rest =>
    if c = '/' then [] :: splitElems rest
    else
      match splitElems rest with
      | [] => [[c]]
      | e :: es => (c :: e) :: es

/-- fs.ValidPath from io/fs: "." or nonempty slash-separated elements,
none of which is "." or "..".  Lean strings are always valid UTF-8, so the
utf8.ValidString guard of the Go source is identically true here. -/
def ValidPath (name : String) : Bool :=
  name == "." ||
    (splitElems name.data).all (fun e => !e.isEmpty && e != ['.'] && e != ['.', '.'])

/-- Auxiliary scan for path.Split: keeps everything up to and including
the last slash of the name. -/
def splitDirAux : List Char → List Char
  | [] => []
  | c :: rest =>
    if rest.contains '/' then c :: splitDirAux rest
    else if c = '/' then [c] else []

/-- The dir component of path.Split(name): name up to and including the
final slash, or the empty string when name has no slash. -/
def pathSplitDir (name : String) : String :=
  String.mk (splitDirAux name.data)

/-- strings.Replace(s, old, new, 1) as used by Rename: old is always a
prefix of s at the call sites, so the first occurrence starts at index 0. -/
def replaceOnce (s old new : String) : String :=
  if old.data.isPrefixOf s.data then String.mk (new.data ++ s.data.drop old.data.length)
  else s

/-- True when some key of the table lies strictly below name, which makes
name a synthesized directory in fstest.MapFS. -/
def hasChild (m : MapFS) (name : String) : Bool :=
  m.any (fun kv => (name ++ "/").data.isPrefixOf kv.1.data)

/-- Result of fstest.MapFS.Open: an ordinary file backed by an explicit
record, a directory (with its explicit record when one exists, none when
synthesized), or fs.ErrNotExist. -/
inductive OpenResult where
  | errR : OpenResult
  | fileR : MapFile → OpenResult
  | dirR : Option MapFile → OpenResult
  deriving DecidableEq, Repr

/-- fstest.MapFS.Open (testing/fstest/mapfs.go): rejects invalid paths
with ErrNotExist; an explicit record without the dir bit is an ordinary
file; "." and any name with keys strictly below it open as a directory,
possibly synthesized; everything else does not exist. -/
def OpenEntry (m : MapFS) (name : String) : OpenResult :=
  if !(ValidPath name) then .errR
  else
    match findEntry m name with
    | some f => if !(IsDir f.Mode) then .fileR f else .dirR (some f)
    | none => if name == "." || hasChild m name then .dirR none else .errR

/-- FileInfo as observed through Stat: mode word, size in bytes, and
modification time. -/
structure FileInfo where
  mode : Nat
  size : Nat
  modTime : Nat
  deriving DecidableEq, Repr

/-- Error kinds: the syscall and io/fs sentinel values the source uses. -/
inductive ErrKind where
  | notExist | eisdir | eexist | enoent | enotdir | enotempty | ebadf
  | einval | negOffset | negPosition
  deriving DecidableEq, Repr

/-- Errors returned by the facade and handle operations: fs.PathError,
os.LinkError, a bare errors.New value, or the io.EOF sentinel.  Nested
wrapping (a PathError whose Err is itself a PathError) is flattened to
the innermost kind; no claim depends on the nesting depth. -/
inductive FsError where
  | pathErr : String → String → ErrKind → FsError
  | linkErr : String → String → String → ErrKind → FsError
  | plainErr : String → FsError
  | eofErr : FsError
  deriving DecidableEq, Repr

/-- True on the ok constructor of an Except value. -/
def isOkE {α β : Type} : Except α β → Bool
  | .ok _ => true
  | .error _ => false

instance {α β : Type} [DecidableEq α] [DecidableEq β] : DecidableEq (Except α β) := fun a b =>
  match a, b with
  | .ok x, .ok y => decidable_of_iff (x = y) (by simp)
  | .error x, .error y => decidable_of_iff (x = y) (by simp)
  | .ok _, .error _ => isFalse (by simp)
  | .error _, .ok _ => isFalse (by simp)

/-- mapFs.Stat (map.go): Open then Stat on the opened file.  The mode of
a synthesized directory is ModeDir plus 0555, its size and time are zero;
explicit records report their own fields. -/
def Stat (m : MapFS) (name : String) : Except FsError FileInfo :=
  match OpenEntry m name with
  | .errR => .error (.pathErr "stat" name .notExist)
  | .fileR mf => .ok { mode := mf.Mode, size := mf.Data.length, modTime := mf.ModTime }
  | .dirR (some mf) => .ok { mode := mf.Mode, size := mf.Data.length, modTime := mf.ModTime }
  | .dirR none => .ok { mode := ModeDir ||| 0o555, size := 0, modTime := 0 }

/-- An open handle, mapFsFile in map.go: the opened name, the open flags,
the mode snapshot taken at open time, the live record bytes reached
through the mfile back-reference, the private bytes.Reader buffer, and
the reader cursor.  The cursor of a bytes.Reader is never negative, so it
is a Nat. -/
structure MapFsFile where
  name : String
  flag : Nat
  perm : Nat
  data : List Nat
  readerData : List Nat
  pos : Nat
  deriving DecidableEq, Repr

/-- Expansion step shared by Write and WriteAt: append zero bytes so the
record reaches pos plus the buffer length when the write extends past the
current end, models the append of make([]byte, end-len(Data)). -/
def expandData (data : List Nat) (pos : Nat) (b : List Nat) : List Nat :=
  if pos + b.length > data.length then
    data ++ List.replicate (pos + b.length - data.length) 0
  else data

/-- Shared write logic of Write and WriteAt (the two Go methods repeat it
verbatim): expand the record when needed, then copy the buffer into the
record at pos, models n = copy(f.mfile.Data[pos:], b).  Returns the new
record bytes and the copy count n. -/
def writeCore (data : List Nat) (pos : Nat) (b : List Nat) : List Nat × Nat :=
  let data0 := expandData data pos b
  let n := min (data0.length - pos) b.length
  (data0.take pos ++ b.take n ++ data0.drop (pos + n), n)

/-- mapFsFile.Read: directory handles fail with EISDIR; a nonzero flag
word without the O_RDONLY or O_RDWR bits fails with EBADF; then
bytes.Reader.Read: at or past the end it returns 0 and io.EOF, otherwise
it copies min(len(buffer), remaining) bytes and advances the cursor.  The
buffer is modeled by its length; the result carries the bytes read. -/
def MapFsFile.Read (f : MapFsFile) (bufLen : Nat) :
    MapFsFile × List Nat × Nat × Option FsError :=
  if IsDir f.perm then (f, [], 0, some (.pathErr "read" f.name .eisdir))
  else if f.flag &&& (O_RDONLY ||| O_RDWR) == 0 && f.flag != 0 then
    (f, [], 0, some (.pathErr "read" f.name .ebadf))
  else if f.readerData.length ≤ f.pos then (f, [], 0, some .eofErr)
  else
    let chunk := (f.readerData.drop f.pos).take bufLen
    ({ f with pos := f.pos + chunk.length }, chunk, chunk.length, none)

/-- mapFsFile.ReadAt: same directory and access checks as Read, then an
explicit bound check on the offset, then bytes.Reader.ReadAt, which does
not move the cursor and reports io.EOF on a short read. -/
def MapFsFile.ReadAt (f : MapFsFile) (bufLen : Nat) (off : Int) :
    MapFsFile × List Nat × Nat × Option FsError :=
  if IsDir f.perm then (f, [], 0, some (.pathErr "read" f.name .eisdir))
  else if f.flag &&& (O_RDONLY ||| O_RDWR) == 0 && f.flag != 0 then
    (f, [], 0, some (.pathErr "read" f.name .ebadf))
  else if off < 0 || off > (f.readerData.length : Int) then
    (f, [], 0, some (.pathErr "read" f.name .einval))
  else
    let chunk := (f.readerData.drop off.toNat).take bufLen
    (f, chunk, chunk.length, if chunk.length < bufLen then some .eofErr else none)

/-- mapFsFile.Seek: directories fail with EISDIR; bytes.Reader.Seek
computes the absolute position from whence (0 start, 1 current, 2 end)
and rejects negative results; positions past the end are allowed. -/
def MapFsFile.Seek (f : MapFsFile) (offset : Int) (whence : Nat) :
    MapFsFile × Except FsError Int :=
  if IsDir f.perm then (f, .error (.pathErr "seek" f.name .eisdir))
  else
    let abs : Int :=
      if whence = 0 then offset
      else if whence = 1 then (f.pos : Int) + offset
      else (f.readerData.length : Int) + offset
    if abs < 0 then (f, .error (.pathErr "seek" f.name .negPosition))
    else ({ f with pos := abs.toNat }, .ok abs)

/-- mapFsFile.Write: directories and handles without a write bit fail
with EBADF; otherwise write at the reader cursor, growing the record as
needed, resync the private buffer from the record keeping the cursor
(reset in map.go), then advance the cursor by the bytes written. -/
def MapFsFile.Write (f : MapFsFile) (b : List Nat) :
    MapFsFile × Nat × Option FsError :=
  if IsDir f.perm || f.flag &&& (O_WRONLY ||| O_RDWR) == 0 then
    (f, 0, some (.pathErr "write" f.name .ebadf))
  else
    let pos := f.pos
    let r := writeCore f.data pos b
    ({ f with data := r.1, readerData := r.1, pos := pos + r.2 }, r.2, none)

/-- mapFsFile.WriteAt: handles opened with O_APPEND fail with a bare
errors.New value carrying no operation or path; then the EBADF check of
Write; negative offsets fail with a path error; otherwise write at the
given offset exactly as Write does, resync the private buffer, and leave
the cursor where it was. -/
def MapFsFile.WriteAt (f : MapFsFile) (b : List Nat) (off : Int) :
    MapFsFile × Nat × Option FsError :=
  if f.flag &&& O_APPEND != 0 then
    (f, 0, some (.plainErr "invalid use of WriteAt on file opened with O_APPEND"))
  else if IsDir f.perm || f.flag &&& (O_WRONLY ||| O_RDWR) == 0 then
    (f, 0, some (.pathErr "write" f.name .ebadf))
  else if off < 0 then (f, 0, some (.pathErr "writeat" f.name .negOffset))
  else
    let r := writeCore f.data off.toNat b
    ({ f with data := r.1, readerData := r.1 }, r.2, none)

/-- mapFsFile.Truncate: directories and handles without a write bit fail
with EINVAL; negative sizes are a silent no-op; otherwise grow with zero
bytes or hard-cut the record, then resync the private buffer keeping the
cursor. -/
def MapFsFile.Truncate (f : MapFsFile) (size : Int) :
    MapFsFile × Option FsError :=
  if IsDir f.perm || f.flag &&& (O_WRONLY ||| O_RDWR) == 0 then
    (f, some (.pathErr "truncate" f.name .einval))
  else if size < 0 then (f, none)
  else
    let curr := f.data.length
    let data1 :=
      if size > (curr : Int) then f.data ++ List.replicate (size.toNat - curr) 0
      else f.data.take size.toNat
    ({ f with data := data1, readerData := data1 }, none)

/-- Continuation of mapFs.OpenFile after a successful inner Open, with
mode, reader bytes (io.ReadAll: the record bytes for a file, empty for a
directory, whose Read fails and is ignored) and the live record bytes
reached through f.MapFS[name] (empty for a synthesized directory, whose
entry is nil and is never dereferenced because every mutating handle
operation first fails on the directory mode).  Applies the O_TRUNC and
O_APPEND actions; the truncation is written back to the table through the
shared record, and its error on unwritable handles is discarded exactly
as in the source. -/
def openCont (m : MapFS) (name : String) (flag : Nat) (mode : Nat)
    (b : List Nat) (recData : List Nat) : MapFS × Except FsError MapFsFile :=
  if IsDir mode && flag &&& (O_WRONLY ||| O_RDWR) != 0 then
    (m, .error (.pathErr "open" name .eisdir))
  else
    let h : MapFsFile :=
      { name := name, flag := flag, perm := mode, data := recData, readerData := b, pos := 0 }
    let mh :=
      if flag &&& O_TRUNC != 0 then
        let h1 := (h.Truncate 0).1
        (setData m name h1.data, h1)
      else (m, h)
    let h2 := if flag &&& O_APPEND != 0 then (mh.2.Seek 0 2).1 else mh.2
    (mh.1, .ok h2)

/-- mapFs.OpenFile (map.go): Open the name; when it does not exist and
O_CREATE is set, insert a fresh record with the given permission (nil
data, zero time) and reopen; reject write flags on directories with
EISDIR; otherwise build the handle and apply O_TRUNC and O_APPEND. -/
def OpenFile (m : MapFS) (name : String) (flag : Nat) (perm : Nat) :
    MapFS × Except FsError MapFsFile :=
  let mr : MapFS × OpenResult :=
    match OpenEntry m name with
    | .errR =>
      if flag &&& O_CREATE != 0 then
        let m1 := insertEntry m name { Data := [], Mode := perm, ModTime := 0 }
        (m1, OpenEntry m1 name)
      else (m, .errR)
    | r => (m, r)
  match mr with
  | (m1, .errR) => (m1, .error (.pathErr "open" name .notExist))
  | (m1, .fileR mf) => openCont m1 name flag mf.Mode mf.Data mf.Data
  | (m1, .dirR (some mf)) => openCont m1 name flag mf.Mode [] mf.Data
  | (m1, .dirR none) => openCont m1 name flag (ModeDir ||| 0o555) [] []

/-- The body of the range loop of mapFs.Rename over a snapshot of the
table keys: every key with oldpath as a raw string prefix is moved to the
key with that prefix substituted, and the movepath flag drops to false.
Reads go through the current table, models f.MapFS[name] during the
loop.  Go map iteration order is unspecified and freshly inserted keys
may or may not be visited; the embedding fixes one legal schedule, a
single pass over the keys present when the loop starts.  The none branch
of the inner lookup is unreachable for a duplicate-free table (a Go map
cannot hold a key twice); Go would move a nil entry there. -/
def renameLoop (old new : String) : List String → MapFS × Bool → MapFS × Bool
  | [], st => st
  | name :: rest, st =>
    let st1 :=
      if old.data.isPrefixOf name.data then
        match findEntry st.1 name with
        | some v => (eraseEntry (insertEntry st.1 (replaceOnce name old new) v) name, false)
        | none => (eraseEntry st.1 name, false)
      else st
    renameLoop old new rest st1

/-- The mutation phase of mapFs.Rename, after all checks passed: run the
prefix loop when oldpath is a directory; when no entry matched (movepath
still true) move the single entry by key. -/
def renameApply (m : MapFS) (old new : String) (isDirOld : Bool) : MapFS × Option FsError :=
  match (if isDirOld then renameLoop old new (m.map (fun kv => kv.1)) (m, true) else (m, true)) with
  | (m1, true) =>
    match findEntry m1 old with
    | some v => (eraseEntry (insertEntry m1 new v) old, none)
    | none => (m1, none)
  | (m1, false) => (m1, none)

/-- mapFs.Rename (map.go): stat oldpath (unwrapping its path error into
the link error); reject oldpath equal to newpath and a newpath that is an
existing directory with EEXIST; when newpath has a dir component, stat it
(the component keeps its trailing slash, an invalid path, so this stat
always fails) and reject with ENOENT or ENOTDIR; then move. -/
def Rename (m : MapFS) (old new : String) : MapFS × Option FsError :=
  match Stat m old with
  | .error _ => (m, some (.linkErr "rename" old new .notExist))
  | .ok oldinfo =>
    if old == new then (m, some (.linkErr "rename" old new .eexist))
    else if (match Stat m new with | .ok ni => IsDir ni.mode | .error _ => false) then
      (m, some (.linkErr "rename" old new .eexist))
    else if pathSplitDir new != "" then
      match Stat m (pathSplitDir new) with
      | .error _ => (m, some (.linkErr "rename" old new .enoent))
      | .ok di =>
        if !(IsDir di.mode) then (m, some (.linkErr "rename" old new .enotdir))
        else renameApply m old new (IsDir oldinfo.mode)
    else renameApply m old new (IsDir oldinfo.mode)

/-- True when fs.ReadDir on name yields a nonempty listing: name opens as
a directory and some key lies strictly below it (for "." any key other
than "." itself).  On files and missing names fs.ReadDir fails and the
source discards the error, leaving an empty listing. -/
def hasDirEntries (m : MapFS) (name : String) : Bool :=
  match OpenEntry m name with
  | .dirR _ =>
    if name == "." then m.any (fun kv => kv.1 != ".")
    else m.any (fun kv => (name ++ "/").data.isPrefixOf kv.1.data)
  | _ => false

/-- mapFs.Remove (map.go): missing keys fail with ENOENT, names with a
nonempty directory listing fail with ENOTEMPTY, otherwise the single
entry is deleted.  Both errors carry the literal string "name" in their
Path field, exactly as the source writes them. -/
def Remove (m : MapFS) (name : String) : MapFS × Option FsError :=
  match findEntry m name with
  | none => (m, some (.pathErr "remove" "name" .enoent))
  | some _ =>
    if hasDirEntries m name then (m, some (.pathErr "remove" "name" .enotempty))
    else (eraseEntry m name, none)

/-- mapFs.RemoveAll (map.go): delete every key with the argument as a raw
string prefix; never fails. -/
def RemoveAll (m : MapFS) (p : String) : MapFS :=
  m.filter (fun kv => !(p.data.isPrefixOf kv.1.data))

/-- mapFs.Mkdir (map.go): when the name has a dir component, stat it (the
component keeps its trailing slash, an invalid path, so this stat always
fails) and reject with ENOENT or ENOTDIR; otherwise insert a record with
the given permission word (the ModeDir bit is not added) and the current
time. -/
def Mkdir (m : MapFS) (name : String) (perm : Nat) (now : Nat) : MapFS × Option FsError :=
  if pathSplitDir name != "" then
    match Stat m (pathSplitDir name) with
    | .error _ => (m, some (.pathErr "mkdir" name .enoent))
    | .ok info =>
      if !(IsDir info.mode) then (m, some (.pathErr "mkdir" name .enotdir))
      else (insertEntry m name { Data := [], Mode := perm, ModTime := now }, none)
  else (insertEntry m name { Data := [], Mode := perm, ModTime := now }, none)

/-- mapFs.MkdirAll (map.go): when stat of the dir component fails (it
always does, see Mkdir) insert the final segment directly; a dir
component that exists as a non-directory would fail with ENOTDIR; an
existing directory component makes the call a no-op. -/
def MkdirAll (m : MapFS) (name : String) (perm : Nat) (now : Nat) : MapFS × Option FsError :=
  match Stat m (pathSplitDir name) with
  | .error _ => (insertEntry m name { Data := [], Mode := perm, ModTime := now }, none)
  | .ok info =>
    if !(IsDir info.mode) then (m, some (.pathErr "mkdir" name .enotdir))
    else (m, none)

/-! Auxiliary lemmas about the table and the write primitive. -/

theorem expandData_length (d b : List Nat) (pos : Nat) :
    (expandData d pos b).length = max d.length (pos + b.length) := by
  unfold expandData
  split <;> simp <;> omega

theorem expandData_get (d b : List Nat) (pos i : Nat) (h : i < d.length) :
    (expandData d pos b)[i]? = d[i]? := by
  unfold expandData
  split
  · rw [List.getElem?_append, if_pos h]
  · rfl

theorem expandData_get_hi (d b : List Nat) (pos i : Nat)
    (h1 : d.length ≤ i) (h2 : i < pos + b.length) :
    (expandData d pos b)[i]? = some 0 := by
  unfold expandData
  rw [if_pos (by omega), List.getElem?_append, if_neg (by omega),
    List.getElem?_replicate, if_pos (by omega)]

theorem writeCore_eq (d b : List Nat) (pos : Nat) :
    writeCore d pos b =
      ((expandData d pos b).take pos ++ b ++ (expandData d pos b).drop (pos + b.length),
        b.length) := by
  unfold writeCore
  dsimp only
  have h1 : b.length ≤ (expandData d pos b).length - pos := by
    rw [expandData_length]; omega
  rw [Nat.min_eq_right h1, List.take_length]

theorem writeCore_n (d b : List Nat) (pos : Nat) :
    (writeCore d pos b).2 = b.length := by
  rw [writeCore_eq]

theorem writeCore_take_length (d b : List Nat) (pos : Nat) :
    ((expandData d pos b).take pos).length = pos := by
  simp [List.length_take, expandData_length]

theorem writeCore_length (d b : List Nat) (pos : Nat) :
    (writeCore d pos b).1.length = max d.length (pos + b.length) := by
  rw [writeCore_eq]
  simp [List.length_take, List.length_drop, expandData_length]
  omega

theorem writeCore_get_low (d b : List Nat) (pos i : Nat)
    (h1 : i < pos) (h2 : i < d.length) :
    (writeCore d pos b).1[i]? = d[i]? := by
  rw [writeCore_eq]
  have hA : i < ((expandData d pos b).take pos).length := by
    rw [writeCore_take_length]; omega
  rw [List.getElem?_append, if_pos (by simp only [List.length_append]; omega),
    List.getElem?_append, if_pos hA, List.getElem?_take, if_pos h1,
    expandData_get d b pos i h2]

theorem writeCore_get_hi (d b : List Nat) (pos i : Nat)
    (h1 : pos + b.length ≤ i) (h2 : i < d.length) :
    (writeCore d pos b).1[i]? = d[i]? := by
  rw [writeCore_eq]
  have hAB : (((expandData d pos b).take pos) ++ b).length = pos + b.length := by
    simp only [List.length_append, writeCore_take_length]
  rw [List.getElem?_append, if_neg (by rw [hAB]; omega),
    List.getElem?_drop, hAB]
  have hidx : pos + b.length + (i - (pos + b.length)) = i := by omega
  rw [hidx, expandData_get d b pos i h2]

theorem writeCore_get_gap (d b : List Nat) (pos i : Nat)
    (h1 : d.length ≤ i) (h2 : i < pos) :
    (writeCore d pos b).1[i]? = some 0 := by
  rw [writeCore_eq]
  have hA : i < ((expandData d pos b).take pos).length := by
    rw [writeCore_take_length]; omega
  rw [List.getElem?_append, if_pos (by simp only [List.length_append]; omega),
    List.getElem?_append, if_pos hA, List.getElem?_take, if_pos h2,
    expandData_get_hi d b pos i h1 (by omega)]

theorem writeCore_get_mid (d b : List Nat) (pos j : Nat) (hj : j < b.length) :
    (writeCore d pos b).1[pos + j]? = b[j]? := by
  rw [writeCore_eq]
  have hA : ((expandData d pos b).take pos).length = pos := writeCore_take_length d b pos
  rw [List.getElem?_append, if_pos (by simp only [List.length_append, hA]; omega),
    List.getElem?_append, if_neg (by rw [hA]; omega), hA]
  have hidx : pos + j - pos = j := by omega
  rw [hidx]

theorem lookup_filter_ne (m : MapFS) (k q : String) (h : q ≠ k) :
    List.lookup q (m.filter (fun kv => kv.1 != k)) = List.lookup q m := by
  induction m with
  | nil => rfl
  | cons kv rest ih =>
    rcases kv with ⟨k1, v1⟩
    by_cases h1 : k1 = k
    · subst h1
      have hq : (q == k1) = false := beq_eq_false_iff_ne.mpr h
      simp [List.filter_cons, List.lookup, hq, ih]
    · have h2 : (k1 != k) = true := bne_iff_ne.mpr h1
      simp [List.filter_cons, h2, List.lookup, ih]

theorem findEntry_insert_self (m : MapFS) (k : String) (v : MapFile) :
    findEntry (insertEntry m k v) k = some v := by
  simp [findEntry, insertEntry, List.lookup]

theorem findEntry_insert_ne (m : MapFS) (k : String) (v : MapFile) (q : String) (h : q ≠ k) :
    findEntry (insertEntry m k v) q = findEntry m q := by
  have hq : (q == k) = false := beq_eq_false_iff_ne.mpr h
  simp [findEntry, insertEntry, List.lookup, hq, lookup_filter_ne m k q h]

theorem findEntry_erase_self (m : MapFS) (k : String) :
    findEntry (eraseEntry m k) k = none := by
  induction m with
  | nil => rfl
  | cons kv rest ih =>
    rcases kv with ⟨k1, v1⟩
    by_cases h1 : k1 = k
    · simpa [eraseEntry, List.filter_cons, h1] using ih
    · have h2 : (k1 != k) = true := bne_iff_ne.mpr h1
      have hk : (k == k1) = false := beq_eq_false_iff_ne.mpr (fun he => h1 he.symm)
      simpa [eraseEntry, List.filter_cons, h2, findEntry, List.lookup, hk] using ih

theorem findEntry_erase_ne (m : MapFS) (k q : String) (h : q ≠ k) :
    findEntry (eraseEntry m k) q = findEntry m q := by
  simpa [findEntry, eraseEntry] using lookup_filter_ne m k q h

theorem findEntry_isSome_of_mem (m : MapFS) (k : String)
    (h : k ∈ m.map (fun kv => kv.1)) : (findEntry m k).isSome = true := by
  induction m with
  | nil => simp at h
  | cons kv rest ih =>
    by_cases he : k = kv.1
    · simp [findEntry, List.lookup, he]
    · have hk : (k == kv.1) = false := beq_eq_false_iff_ne.mpr he
      rw [List.map_cons, List.mem_cons] at h
      have hmem : k ∈ rest.map (fun kv => kv.1) := h.resolve_left he
      simpa [findEntry, List.lookup, hk] using ih hmem

theorem mem_keys_of_findEntry (m : MapFS) (k : String) (v : MapFile)
    (h : findEntry m k = some v) : k ∈ m.map (fun kv => kv.1) := by
  induction m with
  | nil => simp [findEntry, List.lookup] at h
  | cons kv rest ih =>
    by_cases he : k = kv.1
    · simp [he]
    · have hk : (k == kv.1) = false := beq_eq_false_iff_ne.mpr he
      simp only [findEntry, List.lookup, hk] at h
      exact List.mem_cons.mpr (Or.inr (ih h))

theorem findEntry_setData_self (m : MapFS) (k : String) (d : List Nat) :
    findEntry (setData m k d) k = (findEntry m k).map (fun r => { r with Data := d }) := by
  induction m with
  | nil => rfl
  | cons kv rest ih =>
    rcases kv with ⟨k1, v1⟩
    have hstep : setData ((k1, v1) :: rest) k d =
        (if (k1 == k) = true then (k1, { v1 with Data := d }) else (k1, v1)) :: setData rest k d := by
      simp only [setData, List.map_cons]
    by_cases he : k1 = k
    · subst he
      rw [hstep, if_pos (by simp)]
      simp [findEntry, List.lookup]
    · have h1 : (k1 == k) = false := beq_eq_false_iff_ne.mpr he
      have h2 : (k == k1) = false := beq_eq_false_iff_ne.mpr (fun hx => he hx.symm)
      rw [hstep, if_neg (by simp [h1])]
      simpa [findEntry, List.lookup, h2] using ih

theorem openEntry_fileR (m : MapFS) (name : String) (mf : MapFile)
    (h : OpenEntry m name = .fileR mf) :
    findEntry m name = some mf ∧ IsDir mf.Mode = false := by
  unfold OpenEntry at h
  by_cases hv : ValidPath name = true
  · rw [if_neg (by simp [hv])] at h
    rcases hfind : findEntry m name with _ | f <;> rw [hfind] at h <;> dsimp only at h
    · by_cases hroot : (name == "." || hasChild m name) = true
      · rw [if_pos hroot] at h; cases h
      · rw [if_neg hroot] at h; cases h
    · by_cases hdir : IsDir f.Mode = true
      · rw [if_neg (by simp [hdir])] at h; cases h
      · have hdir' : IsDir f.Mode = false := by simpa using hdir
        rw [if_pos (by simp [hdir'])] at h
        cases h
        exact ⟨rfl, hdir'⟩
  · rw [if_pos (by simpa using hv)] at h
    cases h

/-! Claims about the open-handle I/O operations. -/

/-- C4: after every successful write, writeAt, or truncate call on an
open handle whose private buffer mirrors its record (the state every
handle is opened in and that these operations preserve), the private read
buffer equals the back-referenced record bytes, and the resync keeps the
cursor the handle had at that moment; write then separately advances the
cursor by the number of bytes written.  Write and Truncate never consult
the O_APPEND flag, so their conjuncts hold on append handles too; the
no-append and non-negative-offset hypotheses, the success conditions
specific to WriteAt, scope only its conjunct. -/
theorem write_resync_invariant (f : MapFsFile) (b : List Nat) (off size : Int)
    (hsync : f.readerData = f.data)
    (hd : IsDir f.perm = false)
    (hw : f.flag &&& (O_WRONLY ||| O_RDWR) ≠ 0) :
    ((f.Write b).2.2 = none ∧ (f.Write b).1.readerData = (f.Write b).1.data
      ∧ (f.Write b).1.pos = f.pos + (f.Write b).2.1)
    ∧ (f.flag &&& O_APPEND = 0 → 0 ≤ off →
      (f.WriteAt b off).2.2 = none ∧ (f.WriteAt b off).1.readerData = (f.WriteAt b off).1.data
      ∧ (f.WriteAt b off).1.pos = f.pos)
    ∧ ((f.Truncate size).2 = none ∧ (f.Truncate size).1.readerData = (f.Truncate size).1.data
      ∧ (f.Truncate size).1.pos = f.pos) := by
  refine ⟨?_, ?_, ?_⟩
  · simp [MapFsFile.Write, hd, hw]
  · intro ha hoff
    have hoff' : ¬ (off < 0) := by omega
    simp [MapFsFile.WriteAt, hd, hw, ha, hoff']
  · by_cases hs : size < 0
    · simp [MapFsFile.Truncate, hd, hw, hs, hsync]
    · simp [MapFsFile.Truncate, hd, hw, hs]

/-- C4 witness: a write on a read-write handle over three bytes with the
cursor at 1, a writeAt at offset 0 on the same handle, and a truncate to
size 2 on an append handle (flag O_WRONLY plus O_APPEND). -/
theorem write_resync_invariant_witness :
    (MapFsFile.Write
        { name := "f", flag := 2, perm := 0o644, data := [1, 2, 3],
          readerData := [1, 2, 3], pos := 1 } [9]).1.readerData =
      (MapFsFile.Write
        { name := "f", flag := 2, perm := 0o644, data := [1, 2, 3],
          readerData := [1, 2, 3], pos := 1 } [9]).1.data
    ∧ (MapFsFile.WriteAt
        { name := "f", flag := 2, perm := 0o644, data := [1, 2, 3],
          readerData := [1, 2, 3], pos := 1 } [9] 0).1.pos = 1
    ∧ (MapFsFile.Truncate
        { name := "g", flag := O_WRONLY ||| O_APPEND, perm := 0o644, data := [1, 2, 3],
          readerData := [1, 2, 3], pos := 3 } 2).1.readerData =
      (MapFsFile.Truncate
        { name := "g", flag := O_WRONLY ||| O_APPEND, perm := 0o644, data := [1, 2, 3],
          readerData := [1, 2, 3], pos := 3 } 2).1.data :=
  ⟨(write_resync_invariant
      { name := "f", flag := 2, perm := 0o644, data := [1, 2, 3],
        readerData := [1, 2, 3], pos := 1 } [9] 0 0
      rfl (by decide) (by decide)).1.2.1,
    ((write_resync_invariant
      { name := "f", flag := 2, perm := 0o644, data := [1, 2, 3],
        readerData := [1, 2, 3], pos := 1 } [9] 0 0
      rfl (by decide) (by decide)).2.1 (by decide) (by decide)).2.2,
    (write_resync_invariant
      { name := "g", flag := O_WRONLY ||| O_APPEND, perm := 0o644, data := [1, 2, 3],
        readerData := [1, 2, 3], pos := 3 } [9] 0 2
      rfl (by decide) (by decide)).2.2.2.1⟩

/-- C5: a successful writeAt whose range extends past the current length
grows the record to exactly off plus the buffer length, zero-fills the
bytes between the old length and off, places the buffer at off, and does
not move the cursor. -/
theorem writeAt_grow_zero_fill (f : MapFsFile) (b : List Nat) (off : Nat)
    (hd : IsDir f.perm = false)
    (hw : f.flag &&& (O_WRONLY ||| O_RDWR) ≠ 0)
    (ha : f.flag &&& O_APPEND = 0)
    (hg : f.data.length < off + b.length) :
    (f.WriteAt b (off : Int)).2.2 = none
    ∧ (f.WriteAt b (off : Int)).2.1 = b.length
    ∧ (f.WriteAt b (off : Int)).1.data.length = off + b.length
    ∧ (∀ i, f.data.length ≤ i → i < off → (f.WriteAt b (off : Int)).1.data[i]? = some 0)
    ∧ (∀ j, j < b.length → (f.WriteAt b (off : Int)).1.data[off + j]? = b[j]?)
    ∧ (f.WriteAt b (off : Int)).1.pos = f.pos := by
  have hoff' : ¬ ((off : Int) < 0) := by omega
  have key : f.WriteAt b (off : Int) =
      ({ f with data := (writeCore f.data off b).1, readerData := (writeCore f.data off b).1 },
        (writeCore f.data off b).2, none) := by
    simp [MapFsFile.WriteAt, hd, hw, ha, hoff']
  rw [key]
  refine ⟨rfl, writeCore_n f.data b off, ?_, ?_, ?_, rfl⟩
  · show (writeCore f.data off b).1.length = off + b.length
    rw [writeCore_length]; omega
  · intro i hi1 hi2
    exact writeCore_get_gap f.data b off i hi1 hi2
  · intro j hj
    exact writeCore_get_mid f.data b off j hj

/-- C5 witness: the spec example, writing the single byte 88 at offset 5
of a two byte write-only file yields six bytes, the middle three zero,
the last 88, and the cursor stays at 0. -/
theorem writeAt_grow_zero_fill_witness :
    (MapFsFile.WriteAt
        { name := "f", flag := 1, perm := 0, data := [104, 105],
          readerData := [104, 105], pos := 0 } [88] (5 : Int)).1.data.length = 5 + 1
    ∧ (MapFsFile.WriteAt
        { name := "f", flag := 1, perm := 0, data := [104, 105],
          readerData := [104, 105], pos := 0 } [88] (5 : Int)).1.data[2]? = some 0
    ∧ (MapFsFile.WriteAt
        { name := "f", flag := 1, perm := 0, data := [104, 105],
          readerData := [104, 105], pos := 0 } [88] (5 : Int)).1.data[5 + 0]? = [88][0]?
    ∧ (MapFsFile.WriteAt
        { name := "f", flag := 1, perm := 0, data := [104, 105],
          readerData := [104, 105], pos := 0 } [88] (5 : Int)).1.pos = 0 := by
  have h := writeAt_grow_zero_fill
    { name := "f", flag := 1, perm := 0, data := [104, 105], readerData := [104, 105], pos := 0 }
    [88] 5 (by decide) (by decide) (by decide) (by decide)
  exact ⟨h.2.2.1, h.2.2.2.1 2 (by decide) (by decide), h.2.2.2.2.1 0 (by decide), h.2.2.2.2.2⟩

/-- C10: a successful write never changes bytes outside the written
range: for write the range starts at the cursor, for writeAt at the given
offset; every pre-existing byte below the range start and every
pre-existing byte at or past its end keeps its value.  Write never
consults the O_APPEND flag, so its conjuncts hold on append handles too;
the no-append hypothesis, a success condition specific to WriteAt,
scopes only its conjuncts. -/
theorem write_frame_preserved (f : MapFsFile) (b : List Nat) (off : Nat)
    (hd : IsDir f.perm = false)
    (hw : f.flag &&& (O_WRONLY ||| O_RDWR) ≠ 0) :
    (∀ i, i < f.pos → i < f.data.length → (f.Write b).1.data[i]? = f.data[i]?)
    ∧ (∀ i, f.pos + b.length ≤ i → i < f.data.length → (f.Write b).1.data[i]? = f.data[i]?)
    ∧ (f.flag &&& O_APPEND = 0 →
      (∀ i, i < off → i < f.data.length →
        (f.WriteAt b (off : Int)).1.data[i]? = f.data[i]?)
      ∧ (∀ i, off + b.length ≤ i → i < f.data.length →
        (f.WriteAt b (off : Int)).1.data[i]? = f.data[i]?)) := by
  have keyW : (f.Write b).1.data = (writeCore f.data f.pos b).1 := by
    simp [MapFsFile.Write, hd, hw]
  refine ⟨?_, ?_, ?_⟩
  · intro i h1 h2; rw [keyW]; exact writeCore_get_low f.data b f.pos i h1 h2
  · intro i h1 h2; rw [keyW]; exact writeCore_get_hi f.data b f.pos i h1 h2
  · intro ha
    have hoff' : ¬ ((off : Int) < 0) := by omega
    have keyA : (f.WriteAt b (off : Int)).1.data = (writeCore f.data off b).1 := by
      simp [MapFsFile.WriteAt, hd, hw, ha, hoff']
    refine ⟨?_, ?_⟩
    · intro i h1 h2; rw [keyA]; exact writeCore_get_low f.data b off i h1 h2
    · intro i h1 h2; rw [keyA]; exact writeCore_get_hi f.data b off i h1 h2

/-- C10 witness: one byte written at the cursor on an append handle
(flag O_WRONLY plus O_APPEND, cursor 1) and one byte written at offset 1
on a read-write handle, each leaving the bytes at indices 0 and 2 of a
three byte record unchanged. -/
theorem write_frame_preserved_witness :
    (MapFsFile.Write
        { name := "g", flag := O_WRONLY ||| O_APPEND, perm := 0o644, data := [1, 2, 3],
          readerData := [1, 2, 3], pos := 1 } [9]).1.data[0]? = [1, 2, 3][0]?
    ∧ (MapFsFile.Write
        { name := "g", flag := O_WRONLY ||| O_APPEND, perm := 0o644, data := [1, 2, 3],
          readerData := [1, 2, 3], pos := 1 } [9]).1.data[2]? = [1, 2, 3][2]?
    ∧ (MapFsFile.WriteAt
        { name := "f", flag := 2, perm := 0o644, data := [1, 2, 3],
          readerData := [1, 2, 3], pos := 1 } [9] (1 : Int)).1.data[0]? = [1, 2, 3][0]?
    ∧ (MapFsFile.WriteAt
        { name := "f", flag := 2, perm := 0o644, data := [1, 2, 3],
          readerData := [1, 2, 3], pos := 1 } [9] (1 : Int)).1.data[2]? = [1, 2, 3][2]? := by
  have hg := write_frame_preserved
    { name := "g", flag := O_WRONLY ||| O_APPEND, perm := 0o644, data := [1, 2, 3],
      readerData := [1, 2, 3], pos := 1 }
    [9] 1 (by decide) (by decide)
  have hf := write_frame_preserved
    { name := "f", flag := 2, perm := 0o644, data := [1, 2, 3], readerData := [1, 2, 3], pos := 1 }
    [9] 1 (by decide) (by decide)
  exact ⟨hg.1 0 (by decide) (by decide), hg.2.1 2 (by decide) (by decide),
    (hf.2.2 (by decide)).1 0 (by decide) (by decide),
    (hf.2.2 (by decide)).2 2 (by decide) (by decide)⟩

/-- C6 counterexample: a handle opened with flag O_CREATE, whose access
mode bits are O_RDONLY (flag AND (O_RDONLY OR O_RDWR) is zero), on an
ordinary file, is refused with EBADF by Read, although the claim says a
handle opened with read access on a non-directory can always read. -/
theorem read_access_counterexample :
    IsDir (0o644 : Nat) = false
    ∧ O_CREATE &&& (O_RDONLY ||| O_RDWR) = 0
    ∧ (MapFsFile.Read
        { name := "f", flag := O_CREATE, perm := 0o644, data := [1, 2],
          readerData := [1, 2], pos := 0 } 1).2.2.2 =
      some (.pathErr "read" "f" .ebadf) := by
  decide

/-- C6 amended: read fails exactly when the handle is a directory or its
flag word is nonzero yet lacks the O_RDONLY and O_RDWR bits (so read-only
handles carrying auxiliary flags such as O_CREATE cannot read); otherwise
it reads from the cursor, advances it by the bytes read, and returns 0
with the end-of-data sentinel once the cursor is at or past the end. -/
theorem read_characterization (f : MapFsFile) (bufLen : Nat) :
    (IsDir f.perm = true →
      f.Read bufLen = (f, [], 0, some (.pathErr "read" f.name .eisdir)))
    ∧ (IsDir f.perm = false → f.flag &&& (O_RDONLY ||| O_RDWR) = 0 → f.flag ≠ 0 →
      f.Read bufLen = (f, [], 0, some (.pathErr "read" f.name .ebadf)))
    ∧ (IsDir f.perm = false → (f.flag = 0 ∨ f.flag &&& (O_RDONLY ||| O_RDWR) ≠ 0) →
      f.readerData.length ≤ f.pos →
      f.Read bufLen = (f, [], 0, some .eofErr))
    ∧ (IsDir f.perm = false → (f.flag = 0 ∨ f.flag &&& (O_RDONLY ||| O_RDWR) ≠ 0) →
      f.pos < f.readerData.length →
      (f.Read bufLen).2.2.2 = none
      ∧ (f.Read bufLen).2.1 = (f.readerData.drop f.pos).take bufLen
      ∧ (f.Read bufLen).2.2.1 = min bufLen (f.readerData.length - f.pos)
      ∧ (f.Read bufLen).1.pos = f.pos + min bufLen (f.readerData.length - f.pos)) := by
  refine ⟨?_, ?_, ?_, ?_⟩
  · intro h1
    simp [MapFsFile.Read, h1]
  · intro h1 h2 h3
    simp [MapFsFile.Read, h1, h2, h3]
  · intro h1 h2 h3
    rcases h2 with h2 | h2 <;> simp [MapFsFile.Read, h1, h2, h3]
  · intro h1 h2 h3
    have hchunk : ((f.readerData.drop f.pos).take bufLen).length =
        min bufLen (f.readerData.length - f.pos) := by
      simp [List.length_take, List.length_drop]
    have h3' : ¬ (f.readerData.length ≤ f.pos) := by omega
    rcases h2 with h2 | h2 <;>
      simp [MapFsFile.Read, h1, h2, h3', hchunk]

/-- C6 witness: a pure read-only handle (flag 0) on three bytes with the
cursor at 1 reads the remaining two bytes and advances the cursor. -/
theorem read_characterization_witness :
    (MapFsFile.Read
        { name := "f", flag := 0, perm := 0o644, data := [7, 8, 9],
          readerData := [7, 8, 9], pos := 1 } 5).2.2.2 = none
    ∧ (MapFsFile.Read
        { name := "f", flag := 0, perm := 0o644, data := [7, 8, 9],
          readerData := [7, 8, 9], pos := 1 } 5).2.1 = ([7, 8, 9].drop 1).take 5
    ∧ (MapFsFile.Read
        { name := "f", flag := 0, perm := 0o644, data := [7, 8, 9],
          readerData := [7, 8, 9], pos := 1 } 5).1.pos = 1 + min 5 (3 - 1) := by
  have h := (read_characterization
      { name := "f", flag := 0, perm := 0o644, data := [7, 8, 9],
        readerData := [7, 8, 9], pos := 1 } 5).2.2.2
    (by decide) (Or.inl rfl) (by decide)
  exact ⟨h.1, h.2.1, h.2.2.2⟩

/-- C7: evaluation of Mkdir at the inputs where it diverges from the
claim: a top-level mkdir stores the bare permission word, without the
ModeDir bit, so stat reports a non-directory; and mkdir of a nested name
fails with ENOENT although its parent exists as a directory record,
because the stat of the dir component of path.Split keeps the trailing
slash and never names a valid path. -/
theorem mkdir_divergence_eval :
    Mkdir ([] : MapFS) "testdir" 0o755 7 =
      ([("testdir", { Data := [], Mode := 0o755, ModTime := 7 })], none)
    ∧ IsDir 0o755 = false
    ∧ Stat [("testdir", { Data := [], Mode := 0o755, ModTime := 7 })] "testdir" =
      .ok { mode := 0o755, size := 0, modTime := 7 }
    ∧ IsDir (ModeDir ||| 0o755) = true
    ∧ (Mkdir [("parent", { Data := [], Mode := ModeDir ||| 0o755, ModTime := 0 })]
        "parent/child" 0o755 7).2 =
      some (.pathErr "mkdir" "parent/child" .enoent) := by
  decide

/-- C8: evaluation of the two error paths that are not scoped to the
caller path: Remove on a missing name returns a path error whose Path
field is the literal string "name", and WriteAt on an O_APPEND handle
returns a bare error value carrying no operation and no path. -/
theorem error_scoping_divergence_eval :
    (Remove ([] : MapFS) "missingfile").2 =
      some (.pathErr "remove" "name" .enoent)
    ∧ (MapFsFile.WriteAt
        { name := "f", flag := O_WRONLY ||| O_APPEND, perm := 0, data := [],
          readerData := [], pos := 0 } [1] 0).2.2 =
      some (.plainErr "invalid use of WriteAt on file opened with O_APPEND") := by
  decide

theorem openEntry_dirR_some (m : MapFS) (name : String) (mf : MapFile)
    (h : OpenEntry m name = .dirR (some mf)) : IsDir mf.Mode = true := by
  unfold OpenEntry at h
  by_cases hv : ValidPath name = true
  · rw [if_neg (by simp [hv])] at h
    rcases hfind : findEntry m name with _ | f <;> rw [hfind] at h <;> dsimp only at h
    · by_cases hroot : (name == "." || hasChild m name) = true
      · rw [if_pos hroot] at h; cases h
      · rw [if_neg hroot] at h; cases h
    · by_cases hdir : IsDir f.Mode = true
      · rw [if_neg (by simp [hdir])] at h
        cases h
        exact hdir
      · rw [if_pos (by simpa using hdir)] at h; cases h
  · rw [if_pos (by simpa using hv)] at h
    cases h

theorem openCont_dir_write (m : MapFS) (name : String) (flag mode : Nat)
    (b recData : List Nat) (hda : IsDir mode = true)
    (hw : flag &&& (O_WRONLY ||| O_RDWR) ≠ 0) :
    (openCont m name flag mode b recData).2 = .error (.pathErr "open" name .eisdir) := by
  unfold openCont
  rw [if_pos (by simp [hda, hw])]

theorem openCont_trunc_write (m : MapFS) (name : String) (flag mode : Nat)
    (b recData : List Nat) (hnd : IsDir mode = false)
    (ht : flag &&& O_TRUNC ≠ 0) (hw : flag &&& (O_WRONLY ||| O_RDWR) ≠ 0) :
    (openCont m name flag mode b recData).1 = setData m name []
    ∧ isOkE (openCont m name flag mode b recData).2 = true := by
  unfold openCont
  rw [if_neg (by simp [hnd])]
  dsimp only
  rw [if_pos (by simpa using ht)]
  have htr : (MapFsFile.Truncate
      { name := name, flag := flag, perm := mode, data := recData, readerData := b, pos := 0 }
      0).1.data = [] := by
    have h0 : ¬ ((0 : Int) < 0) := by omega
    have h1 : ¬ ((0 : Int) > ((recData.length : Nat) : Int)) := by omega
    simp [MapFsFile.Truncate, hnd, hw, h0, h1]
  rw [htr]
  constructor
  · rfl
  · split <;> rfl

theorem mem_keys_of_mem (m : MapFS) (kv : String × MapFile) (h : kv ∈ m) :
    kv.1 ∈ m.map (fun kv => kv.1) := List.mem_map_of_mem _ h

/-! Claims about the facade operations. -/

/-- C1 counterexample: on the empty table, open(".", read-only) succeeds
with a synthesized root directory instead of failing NotFound; open with
the create flag and a permission carrying the ModeDir bit creates a
record whose directory flag is on; and open with the create flag on the
non-normalized path ".." fails instead of creating. -/
theorem openFile_claim1_counterexample :
    isOkE (OpenFile ([] : MapFS) "." O_RDONLY 0).2 = true
    ∧ findEntry (OpenFile ([] : MapFS) "p" O_CREATE (ModeDir ||| 0o755)).1 "p" =
        some { Data := [], Mode := ModeDir ||| 0o755, ModTime := 0 }
    ∧ IsDir (ModeDir ||| 0o755) = true
    ∧ isOkE (OpenFile ([] : MapFS) ".." O_CREATE 0o644).2 = false := by
  decide

/-- C1 amended: for a valid path P other than "." with no record and no
key strictly below it, open(P, read-only) fails NotFound and leaves the
table unchanged; open(P, create-flag, perm) for a permission without the
directory bit succeeds, creates a record with directory flag off, empty
data and the given permission, and a subsequent stat reports that
permission. -/
theorem openFile_absent_create (m : MapFS) (P : String) (perm permR : Nat)
    (hv : ValidPath P = true) (hdot : P ≠ ".")
    (habs : findEntry m P = none) (hnc : hasChild m P = false)
    (hperm : IsDir perm = false) :
    (OpenFile m P O_RDONLY permR).2 = .error (.pathErr "open" P .notExist)
    ∧ (OpenFile m P O_RDONLY permR).1 = m
    ∧ isOkE (OpenFile m P O_CREATE perm).2 = true
    ∧ findEntry (OpenFile m P O_CREATE perm).1 P =
        some { Data := [], Mode := perm, ModTime := 0 }
    ∧ Stat (OpenFile m P O_CREATE perm).1 P =
        .ok { mode := perm, size := 0, modTime := 0 } := by
  have hdotb : (P == ".") = false := beq_eq_false_iff_ne.mpr hdot
  have hOE : OpenEntry m P = .errR := by
    unfold OpenEntry
    rw [if_neg (by simp [hv]), habs]
    dsimp only
    rw [if_neg (by simp [hdotb, hnc])]
  have hm1find : findEntry (insertEntry m P { Data := [], Mode := perm, ModTime := 0 }) P =
      some { Data := [], Mode := perm, ModTime := 0 } :=
    findEntry_insert_self m P _
  have hOE1 : OpenEntry (insertEntry m P { Data := [], Mode := perm, ModTime := 0 }) P =
      .fileR { Data := [], Mode := perm, ModTime := 0 } := by
    unfold OpenEntry
    rw [if_neg (by simp [hv]), hm1find]
    dsimp only
    rw [if_pos (by simp [hperm])]
  have hread : OpenFile m P O_RDONLY permR = (m, .error (.pathErr "open" P .notExist)) := by
    unfold OpenFile
    rw [hOE]
    dsimp only
    rw [if_neg (by decide)]
  have hcreate : OpenFile m P O_CREATE perm =
      (insertEntry m P { Data := [], Mode := perm, ModTime := 0 },
        .ok { name := P, flag := O_CREATE, perm := perm, data := [], readerData := [], pos := 0 }) := by
    unfold OpenFile
    rw [hOE]
    dsimp only
    rw [if_pos (by decide), hOE1]
    dsimp only
    unfold openCont
    rw [if_neg (by simp [hperm])]
    dsimp only
    rw [if_neg (by decide), if_neg (by decide)]
  refine ⟨by rw [hread], by rw [hread], by rw [hcreate]; rfl, by rw [hcreate]; exact hm1find, ?_⟩
  rw [hcreate]
  unfold Stat
  rw [hOE1]
  rfl

/-- C1 witness: the empty table and the file path "p" with permission
0o644. -/
theorem openFile_absent_create_witness :
    isOkE (OpenFile ([] : MapFS) "p" O_CREATE 0o644).2 = true
    ∧ Stat (OpenFile ([] : MapFS) "p" O_CREATE 0o644).1 "p" =
        .ok { mode := 0o644, size := 0, modTime := 0 } := by
  have h := openFile_absent_create [] "p" 0o644 0
    (by decide) (by decide) (by decide) (by decide) (by decide)
  exact ⟨h.2.2.1, h.2.2.2.2⟩

/-- C3 counterexample: opening an existing two byte file with flags
O_RDONLY plus O_TRUNC succeeds, yet the record keeps its bytes: the
internal truncation fails with EINVAL on the read-only handle and the
error is discarded, so the truncate flag does not empty the record for
every access mode. -/
theorem open_trunc_readonly_counterexample :
    isOkE (OpenFile [("f", { Data := [1, 2], Mode := 0, ModTime := 0 })] "f"
        (O_RDONLY ||| O_TRUNC) 0).2 = true
    ∧ findEntry (OpenFile [("f", { Data := [1, 2], Mode := 0, ModTime := 0 })] "f"
        (O_RDONLY ||| O_TRUNC) 0).1 "f" =
      some { Data := [1, 2], Mode := 0, ModTime := 0 } := by
  decide

/-- C3 amended: when the flags carry the truncate flag together with a
write access bit (write-only or read-write), a successful open leaves the
record at the opened path with empty data; with read-only access the
truncation is refused internally and the data is kept. -/
theorem open_trunc_write_empties (m : MapFS) (name : String) (flag perm : Nat)
    (ht : flag &&& O_TRUNC ≠ 0) (hw : flag &&& (O_WRONLY ||| O_RDWR) ≠ 0)
    (hok : isOkE (OpenFile m name flag perm).2 = true) :
    Option.map MapFile.Data (findEntry (OpenFile m name flag perm).1 name) = some [] := by
  unfold OpenFile at hok ⊢
  rcases hOE : OpenEntry m name with _ | mf | omf
  · rw [hOE] at hok
    dsimp only at hok ⊢
    by_cases hc : (flag &&& O_CREATE != 0) = true
    · rw [if_pos hc] at hok ⊢
      rcases hOE1 : OpenEntry (insertEntry m name { Data := [], Mode := perm, ModTime := 0 }) name
        with _ | mf1 | omf1 <;> rw [hOE1] at hok <;> try dsimp only at hok ⊢
      · simp [isOkE] at hok
      · obtain ⟨hfind1, hnd1⟩ := openEntry_fileR _ _ _ hOE1
        obtain ⟨h1, _⟩ := openCont_trunc_write
          (insertEntry m name { Data := [], Mode := perm, ModTime := 0 }) name flag mf1.Mode
          mf1.Data mf1.Data hnd1 ht hw
        rw [h1, findEntry_setData_self, hfind1]
        rfl
      · rcases omf1 with _ | mf1 <;> try dsimp only at hok ⊢
        · have := openCont_dir_write
            (insertEntry m name { Data := [], Mode := perm, ModTime := 0 }) name flag
            (ModeDir ||| 0o555) [] [] (by decide) hw
          rw [this] at hok
          simp [isOkE] at hok
        · have hd1 := openEntry_dirR_some _ _ _ hOE1
          have := openCont_dir_write
            (insertEntry m name { Data := [], Mode := perm, ModTime := 0 }) name flag
            mf1.Mode [] mf1.Data hd1 hw
          rw [this] at hok
          simp [isOkE] at hok
    · rw [if_neg hc] at hok
      dsimp only at hok
      simp [isOkE] at hok
  · rw [hOE] at hok
    dsimp only at hok ⊢
    obtain ⟨hfind1, hnd1⟩ := openEntry_fileR _ _ _ hOE
    obtain ⟨h1, _⟩ := openCont_trunc_write m name flag mf.Mode mf.Data mf.Data hnd1 ht hw
    rw [h1, findEntry_setData_self, hfind1]
    rfl
  · rw [hOE] at hok
    rcases omf with _ | mf1 <;> try dsimp only at hok ⊢
    · have := openCont_dir_write m name flag (ModeDir ||| 0o555) [] [] (by decide) hw
      rw [this] at hok
      simp [isOkE] at hok
    · have hd1 := openEntry_dirR_some _ _ _ hOE
      have := openCont_dir_write m name flag mf1.Mode [] mf1.Data hd1 hw
      rw [this] at hok
      simp [isOkE] at hok

/-- C3 witness: the two byte file opened write-only with truncation. -/
theorem open_trunc_write_empties_witness :
    Option.map MapFile.Data
      (findEntry (OpenFile [("f", { Data := [1, 2], Mode := 0, ModTime := 0 })] "f"
          (O_WRONLY ||| O_TRUNC) 0).1 "f") = some [] :=
  open_trunc_write_empties [("f", { Data := [1, 2], Mode := 0, ModTime := 0 })] "f"
    (O_WRONLY ||| O_TRUNC) 0 (by decide) (by decide) (by decide)

theorem renameApply_none (m : MapFS) (old new : String) (b : Bool) :
    (renameApply m old new b).2 = none := by
  unfold renameApply
  split
  · split <;> rfl
  · rfl

theorem rename_frame_or (m : MapFS) (old new : String) :
    (Rename m old new).1 = m ∨ (Rename m old new).2 = none := by
  unfold Rename
  cases hS : Stat m old with
  | error e => left; rfl
  | ok info =>
    dsimp only
    by_cases h1 : (old == new) = true
    · rw [if_pos h1]; left; rfl
    · rw [if_neg h1]
      by_cases h2 : (match Stat m new with | .ok ni => IsDir ni.mode | .error _ => false) = true
      · rw [if_pos h2]; left; rfl
      · rw [if_neg h2]
        by_cases h3 : (pathSplitDir new != "") = true
        · rw [if_pos h3]
          cases hS2 : Stat m (pathSplitDir new) with
          | error e2 => left; rfl
          | ok di =>
            dsimp only
            by_cases h4 : (!IsDir di.mode) = true
            · rw [if_pos h4]; left; rfl
            · rw [if_neg h4]; right; exact renameApply_none m old new (IsDir info.mode)
        · rw [if_neg h3]; right; exact renameApply_none m old new (IsDir info.mode)

theorem remove_frame_or (m : MapFS) (name : String) :
    (Remove m name).1 = m ∨ (Remove m name).2 = none := by
  unfold Remove
  cases hF : findEntry m name with
  | none => left; rfl
  | some v =>
    dsimp only
    by_cases h1 : hasDirEntries m name = true
    · rw [if_pos h1]; left; rfl
    · rw [if_neg h1]; right; rfl

theorem mkdir_frame_or (m : MapFS) (name : String) (perm now : Nat) :
    (Mkdir m name perm now).1 = m ∨ (Mkdir m name perm now).2 = none := by
  unfold Mkdir
  by_cases h1 : (pathSplitDir name != "") = true
  · rw [if_pos h1]
    cases hS : Stat m (pathSplitDir name) with
    | error e => left; rfl
    | ok info =>
      dsimp only
      by_cases h2 : (!IsDir info.mode) = true
      · rw [if_pos h2]; left; rfl
      · rw [if_neg h2]; right; rfl
  · rw [if_neg h1]; right; rfl

/-- C9: whenever Rename, Remove or Mkdir returns an error, the table is
exactly as it was before the call, since every validation precedes every
mutation in all three operations. -/
theorem mutating_ops_error_frame :
    (∀ (m : MapFS) (old new : String) (e : FsError),
      (Rename m old new).2 = some e → (Rename m old new).1 = m)
    ∧ (∀ (m : MapFS) (name : String) (e : FsError),
      (Remove m name).2 = some e → (Remove m name).1 = m)
    ∧ (∀ (m : MapFS) (name : String) (perm now : Nat) (e : FsError),
      (Mkdir m name perm now).2 = some e → (Mkdir m name perm now).1 = m) := by
  refine ⟨?_, ?_, ?_⟩
  · intro m old new e h
    rcases rename_frame_or m old new with h1 | h1
    · exact h1
    · rw [h] at h1; cases h1
  · intro m name e h
    rcases remove_frame_or m name with h1 | h1
    · exact h1
    · rw [h] at h1; cases h1
  · intro m name perm now e h
    rcases mkdir_frame_or m name perm now with h1 | h1
    · exact h1
    · rw [h] at h1; cases h1

/-- C9 witness: a rename whose source is missing, a remove of a missing
name, and a nested mkdir, each failing and each leaving its table as it
was. -/
theorem mutating_ops_error_frame_witness :
    (Rename ([] : MapFS) "a" "b").1 = []
    ∧ (Remove ([] : MapFS) "x").1 = []
    ∧ (Mkdir [("p", { Data := [], Mode := 0, ModTime := 0 })] "p/q" 0o755 3).1 =
        [("p", { Data := [], Mode := 0, ModTime := 0 })] := by
  have h := mutating_ops_error_frame
  exact ⟨h.1 [] "a" "b" (.linkErr "rename" "a" "b" .notExist) (by decide),
    h.2.1 [] "x" (.pathErr "remove" "name" .enoent) (by decide),
    h.2.2 [("p", { Data := [], Mode := 0, ModTime := 0 })] "p/q" 0o755 3
      (.pathErr "mkdir" "p/q" .enoent) (by decide)⟩

theorem replaceOnce_inj (old new k1 k2 : String)
    (h1 : old.data.isPrefixOf k1.data = true) (h2 : old.data.isPrefixOf k2.data = true)
    (heq : replaceOnce k1 old new = replaceOnce k2 old new) : k1 = k2 := by
  unfold replaceOnce at heq
  rw [if_pos h1, if_pos h2] at heq
  have hd : k1.data.drop old.data.length = k2.data.drop old.data.length :=
    List.append_cancel_left (congrArg String.data heq)
  have e1 : old.data ++ k1.data.drop old.data.length = k1.data := by
    obtain ⟨t, ht⟩ := List.isPrefixOf_iff_prefix.mp h1
    rw [← ht, List.drop_left]
  have e2 : old.data ++ k2.data.drop old.data.length = k2.data := by
    obtain ⟨t, ht⟩ := List.isPrefixOf_iff_prefix.mp h2
    rw [← ht, List.drop_left]
  have hdata : k1.data = k2.data := by rw [← e1, ← e2, hd]
  cases k1
  cases k2
  exact congrArg String.mk (by simpa using hdata)

theorem renameLoop_false (old new : String) (names : List String) (m : MapFS) :
    (renameLoop old new names (m, false)).2 = false := by
  induction names generalizing m with
  | nil => rfl
  | cons name rest ih =>
    unfold renameLoop
    dsimp only
    by_cases hp : old.data.isPrefixOf name.data = true
    · rw [if_pos hp]
      cases hF : findEntry m name <;> dsimp only <;> exact ih _
    · rw [if_neg hp]
      exact ih m

theorem renameLoop_sets_false (old new : String) (names : List String) (m : MapFS)
    (h : ∃ k, k ∈ names ∧ old.data.isPrefixOf k.data = true) :
    (renameLoop old new names (m, true)).2 = false := by
  induction names generalizing m with
  | nil =>
    rcases h with ⟨k, hk, _⟩
    cases hk
  | cons name rest ih =>
    unfold renameLoop
    dsimp only
    by_cases hp : old.data.isPrefixOf name.data = true
    · rw [if_pos hp]
      cases hF : findEntry m name <;> dsimp only <;> exact renameLoop_false old new rest _
    · rw [if_neg hp]
      apply ih
      rcases h with ⟨k, hk, hkp⟩
      rcases List.mem_cons.mp hk with rfl | hk2
      · exact absurd hkp (by simpa using hp)
      · exact ⟨k, hk2, hkp⟩

theorem renameLoop_find (old new : String) (names : List String) (m : MapFS) (mv : Bool)
    (hnd : names.Nodup)
    (hsome : ∀ k, k ∈ names → old.data.isPrefixOf k.data = true →
      (findEntry m k).isSome = true)
    (hT : ∀ k, k ∈ names → old.data.isPrefixOf k.data = true →
      ∀ k', k' ∈ names → old.data.isPrefixOf k'.data = true → replaceOnce k' old new ≠ k) :
    ∀ q : String,
      ((q ∈ names ∧ old.data.isPrefixOf q.data = true) →
        (findEntry (renameLoop old new names (m, mv)).1 q = none
          ∧ findEntry (renameLoop old new names (m, mv)).1 (replaceOnce q old new) =
              findEntry m q))
      ∧ ((¬ (q ∈ names ∧ old.data.isPrefixOf q.data = true)) →
        (∀ k, k ∈ names → old.data.isPrefixOf k.data = true → q ≠ replaceOnce k old new) →
        findEntry (renameLoop old new names (m, mv)).1 q = findEntry m q) := by
  induction names generalizing m mv with
  | nil =>
    intro q
    refine ⟨?_, ?_⟩
    · rintro ⟨hq, _⟩
      cases hq
    · intro _ _
      rfl
  | cons name rest ih =>
    unfold renameLoop
    dsimp only
    by_cases hp : old.data.isPrefixOf name.data = true
    case neg =>
      rw [if_neg hp]
      have ih' := ih m mv hnd.of_cons
        (fun k hk hkp => hsome k (List.mem_cons.mpr (Or.inr hk)) hkp)
        (fun k hk hkp k' hk' hk'p =>
          hT k (List.mem_cons.mpr (Or.inr hk)) hkp k' (List.mem_cons.mpr (Or.inr hk')) hk'p)
      intro q
      refine ⟨?_, ?_⟩
      · rintro ⟨hq, hqp⟩
        rcases List.mem_cons.mp hq with rfl | hq2
        · exact absurd hqp (by simpa using hp)
        · exact (ih' q).1 ⟨hq2, hqp⟩
      · intro hqn hfr
        exact (ih' q).2
          (fun hcon => hqn ⟨List.mem_cons.mpr (Or.inr hcon.1), hcon.2⟩)
          (fun k hk hkp => hfr k (List.mem_cons.mpr (Or.inr hk)) hkp)
    case pos =>
      rw [if_pos hp]
      have hname_mem : name ∈ name :: rest := List.mem_cons_self name rest
      obtain ⟨v, hv⟩ := Option.isSome_iff_exists.mp (hsome name hname_mem hp)
      rw [hv]
      dsimp only
      have hname_notin : name ∉ rest := (List.nodup_cons.mp hnd).1
      have hsubname_ne : ∀ k, k ∈ name :: rest → old.data.isPrefixOf k.data = true →
          replaceOnce name old new ≠ k :=
        fun k hk hkp => hT k hk hkp name hname_mem hp
      have hstep_find : ∀ k, k ∈ rest → old.data.isPrefixOf k.data = true →
          findEntry (eraseEntry (insertEntry m (replaceOnce name old new) v) name) k =
            findEntry m k := by
        intro k hk hkp
        have hk_ne_name : k ≠ name := fun he => hname_notin (he ▸ hk)
        have hk_ne_sub : k ≠ replaceOnce name old new :=
          fun he => hsubname_ne k (List.mem_cons.mpr (Or.inr hk)) hkp he.symm
        rw [findEntry_erase_ne _ _ _ hk_ne_name, findEntry_insert_ne _ _ _ _ hk_ne_sub]
      have ih' := ih (eraseEntry (insertEntry m (replaceOnce name old new) v) name) false
        hnd.of_cons
        (fun k hk hkp => by
          rw [hstep_find k hk hkp]
          exact hsome k (List.mem_cons.mpr (Or.inr hk)) hkp)
        (fun k hk hkp k' hk' hk'p =>
          hT k (List.mem_cons.mpr (Or.inr hk)) hkp k' (List.mem_cons.mpr (Or.inr hk')) hk'p)
      intro q
      refine ⟨?_, ?_⟩
      · rintro ⟨hq, hqp⟩
        rcases List.mem_cons.mp hq with rfl | hq2
        · refine ⟨?_, ?_⟩
          · have hn1 : ¬ (q ∈ rest ∧ old.data.isPrefixOf q.data = true) :=
              fun hcon => hname_notin hcon.1
            have hn2 : ∀ k, k ∈ rest → old.data.isPrefixOf k.data = true →
                q ≠ replaceOnce k old new :=
              fun k hk hkp =>
                (hT q hname_mem hp k (List.mem_cons.mpr (Or.inr hk)) hkp).symm
            rw [(ih' q).2 hn1 hn2, findEntry_erase_self]
          · have hn1 : ¬ (replaceOnce q old new ∈ rest
                ∧ old.data.isPrefixOf (replaceOnce q old new).data = true) :=
              fun hcon =>
                hT (replaceOnce q old new) (List.mem_cons.mpr (Or.inr hcon.1)) hcon.2
                  q hname_mem hp rfl
            have hn2 : ∀ k, k ∈ rest → old.data.isPrefixOf k.data = true →
                replaceOnce q old new ≠ replaceOnce k old new := by
              intro k hk hkp heq
              exact hname_notin ((replaceOnce_inj old new q k hp hkp heq) ▸ hk)
            rw [(ih' (replaceOnce q old new)).2 hn1 hn2,
              findEntry_erase_ne _ _ _ (hsubname_ne q hname_mem hp),
              findEntry_insert_self, hv]
        · have hrec := (ih' q).1 ⟨hq2, hqp⟩
          exact ⟨hrec.1, by rw [hrec.2, hstep_find q hq2 hqp]⟩
      · intro hqn hfr
        have hn1 : ¬ (q ∈ rest ∧ old.data.isPrefixOf q.data = true) :=
          fun hcon => hqn ⟨List.mem_cons.mpr (Or.inr hcon.1), hcon.2⟩
        have hn2 : ∀ k, k ∈ rest → old.data.isPrefixOf k.data = true →
            q ≠ replaceOnce k old new :=
          fun k hk hkp => hfr k (List.mem_cons.mpr (Or.inr hk)) hkp
        have hq_ne_sub : q ≠ replaceOnce name old new := hfr name hname_mem hp
        have hq_ne_name : q ≠ name := by
          rintro rfl
          exact hqn ⟨hname_mem, hp⟩
        rw [(ih' q).2 hn1 hn2, findEntry_erase_ne _ _ _ hq_ne_name,
          findEntry_insert_ne _ _ _ _ hq_ne_sub]

theorem renameApply_dir_spec (m : MapFS) (old new : String) (r : MapFile)
    (hnd : (m.map (fun kv => kv.1)).Nodup)
    (hrec : findEntry m old = some r)
    (hT : ∀ k, k ∈ m.map (fun kv => kv.1) → old.data.isPrefixOf k.data = true →
      ∀ k', k' ∈ m.map (fun kv => kv.1) → old.data.isPrefixOf k'.data = true →
      replaceOnce k' old new ≠ k) :
    (∀ k, k ∈ m.map (fun kv => kv.1) → old.data.isPrefixOf k.data = true →
      findEntry (renameApply m old new true).1 (replaceOnce k old new) = findEntry m k
      ∧ findEntry (renameApply m old new true).1 k = none)
    ∧ findEntry (renameApply m old new true).1 old = none := by
  have hmem_old : old ∈ m.map (fun kv => kv.1) := mem_keys_of_findEntry m old r hrec
  have hpre_old : old.data.isPrefixOf old.data = true := by
    simp [List.isPrefixOf_iff_prefix]
  have hbool := renameLoop_sets_false old new (m.map (fun kv => kv.1)) m
    ⟨old, hmem_old, hpre_old⟩
  have hspec := renameLoop_find old new (m.map (fun kv => kv.1)) m true hnd
    (fun k hk _ => findEntry_isSome_of_mem m k hk) hT
  unfold renameApply
  rcases hL : renameLoop old new (m.map (fun kv => kv.1)) (m, true) with ⟨m2, b2⟩
  rw [hL] at hbool hspec
  dsimp only at hbool hspec
  subst hbool
  rw [if_pos rfl, hL]
  dsimp only
  refine ⟨fun k hk hkp => ⟨((hspec k).1 ⟨hk, hkp⟩).2, ((hspec k).1 ⟨hk, hkp⟩).1⟩, ?_⟩
  exact ((hspec old).1 ⟨hmem_old, hpre_old⟩).1

/-- C2: for a directory record at oldpath, a rename that returns no error
moves every entry whose key has oldpath as a raw string prefix to the key
with that prefix substituted by newpath, and every such key, the bare
oldpath among them, resolves to nothing afterwards, so it is not
separately remapped.  The table is assumed duplicate-free (a Go map) and
the substituted keys are assumed not to collide with the affected keys,
which keeps the one-pass schedule of the unordered Go map loop
deterministic. -/
theorem rename_dir_bulk_move (m : MapFS) (old new : String) (r : MapFile)
    (hnd : (m.map (fun kv => kv.1)).Nodup)
    (hrec : findEntry m old = some r) (hdir : IsDir r.Mode = true)
    (hok : (Rename m old new).2 = none)
    (hT : ∀ k, k ∈ m.map (fun kv => kv.1) → old.data.isPrefixOf k.data = true →
      ∀ k', k' ∈ m.map (fun kv => kv.1) → old.data.isPrefixOf k'.data = true →
      replaceOnce k' old new ≠ k) :
    (∀ k, k ∈ m.map (fun kv => kv.1) → old.data.isPrefixOf k.data = true →
      findEntry (Rename m old new).1 (replaceOnce k old new) = findEntry m k
      ∧ findEntry (Rename m old new).1 k = none)
    ∧ findEntry (Rename m old new).1 old = none := by
  by_cases hv : ValidPath old = true
  case neg =>
    exfalso
    have hS : Stat m old = .error (.pathErr "stat" old .notExist) := by
      unfold Stat OpenEntry
      rw [if_pos (by simpa using hv)]
    unfold Rename at hok
    rw [hS] at hok
    simp at hok
  case pos =>
    have hS : Stat m old = .ok { mode := r.Mode, size := r.Data.length, modTime := r.ModTime } := by
      unfold Stat OpenEntry
      rw [if_neg (by simp [hv]), hrec]
      dsimp only
      rw [if_neg (by simp [hdir])]
    unfold Rename at hok ⊢
    rw [hS] at hok ⊢
    dsimp only at hok ⊢
    by_cases h1 : (old == new) = true
    · rw [if_pos h1] at hok; simp at hok
    rw [if_neg h1] at hok ⊢
    by_cases h2 : (match Stat m new with | .ok ni => IsDir ni.mode | .error _ => false) = true
    · rw [if_pos h2] at hok; simp at hok
    rw [if_neg h2] at hok ⊢
    by_cases h3 : (pathSplitDir new != "") = true
    · rw [if_pos h3] at hok ⊢
      cases hS2 : Stat m (pathSplitDir new) with
      | error e2 =>
        rw [hS2] at hok
        simp at hok
      | ok di =>
        rw [hS2] at hok
        dsimp only at hok ⊢
        by_cases h4 : (!IsDir di.mode) = true
        · rw [if_pos h4] at hok; simp at hok
        rw [if_neg h4] at hok ⊢
        rw [hdir]
        exact renameApply_dir_spec m old new r hnd hrec hT
    · rw [if_neg h3] at hok ⊢
      rw [hdir]
      exact renameApply_dir_spec m old new r hnd hrec hT

/-- C2 witness: the spec example, a directory record D with child D/f
renamed to D2: D2/f holds the old child record and D and D/f resolve to
nothing. -/
theorem rename_dir_bulk_move_witness :
    findEntry (Rename
        [("D", { Data := [], Mode := ModeDir ||| 0o755, ModTime := 0 }),
          ("D/f", { Data := [1], Mode := 0o644, ModTime := 0 })] "D" "D2").1
      (replaceOnce "D/f" "D" "D2") =
      findEntry
        [("D", { Data := [], Mode := ModeDir ||| 0o755, ModTime := 0 }),
          ("D/f", { Data := [1], Mode := 0o644, ModTime := 0 })] "D/f"
    ∧ findEntry (Rename
        [("D", { Data := [], Mode := ModeDir ||| 0o755, ModTime := 0 }),
          ("D/f", { Data := [1], Mode := 0o644, ModTime := 0 })] "D" "D2").1 "D/f" = none
    ∧ findEntry (Rename
        [("D", { Data := [], Mode := ModeDir ||| 0o755, ModTime := 0 }),
          ("D/f", { Data := [1], Mode := 0o644, ModTime := 0 })] "D" "D2").1 "D" = none
    ∧ replaceOnce "D/f" "D" "D2" = "D2/f" := by
  have h := rename_dir_bulk_move
    [("D", { Data := [], Mode := ModeDir ||| 0o755, ModTime := 0 }),
      ("D/f", { Data := [1], Mode := 0o644, ModTime := 0 })] "D" "D2"
    { Data := [], Mode := ModeDir ||| 0o755, ModTime := 0 }
    (by decide) (by decide) (by decide) (by decide) (by decide)
  exact ⟨(h.1 "D/f" (by decide) (by decide)).1, (h.1 "D/f" (by decide) (by decide)).2,
    h.2, by decide⟩

end Wfs
